import Mathlib

/-!
Verification of the aggregation-and-normalization pipeline of the TBI
dashboard (`tbi.py`).

The source manipulates pandas DataFrames.  We embed a DataFrame as a
`Table`: a list of column names together with a list of rows, each row a
function from column name to cell value.  Cell values (`Val`) are either
category strings or rational numbers (pandas reads the count/rate columns
as numbers; rationals stand in for the exact arithmetic, the claims'
"floating tolerance" being absorbed by exactness).

Division in pandas follows IEEE float semantics: `x/0` is `±inf` for
`x ≠ 0` and `NaN` for `0/0`, and `NaN` propagates.  `PVal` embeds this
value domain (finite rational, `NaN`, `±inf`); `unstack` produces `NaN`
cells for absent (group, category) pairs, which we model as `PVal.nan`
via an `Option ℚ` intermediate stage.

Requesting a missing column from a DataFrame raises a `KeyError` naming
the column; we embed fallible pipeline stages in `Except PdError`.
-/

/-- A cell of a pandas DataFrame as loaded from the CSVs: a category
string or a (rational) number. -/
inductive Val where
  | str : String → Val
  | num : ℚ → Val
deriving DecidableEq, Repr

/-- A pandas float value after arithmetic: NaN, ±infinity, or a finite
value (modelled as an exact rational). -/
inductive PVal where
  | nan : PVal
  | posInf : PVal
  | negInf : PVal
  | val : ℚ → PVal
deriving DecidableEq, Repr

/-- Errors raised by the pipeline: a `KeyError` naming the missing
column requested from a DataFrame. -/
inductive PdError where
  | keyError : String → PdError
deriving DecidableEq, Repr

/-- A DataFrame: the column names and the rows (a row maps a column name
to its cell value; only names in `cols` are meaningful). -/
structure Table where
  cols : List String
  rows : List (String → Val)

/-- Numeric content of a cell, as used by pandas sums over a numeric
column (the claims only ever sum columns whose cells are numbers). -/
def Val.toQ : Val → ℚ
  | .num q => q
  | .str _ => 0

/-- IEEE-style division `x / d` of an optional numerator (NaN when
`none`) by an optional denominator (NaN when `none`): NaN propagates,
`q/0` is `±inf` for `q ≠ 0` and NaN for `0/0`. -/
def pdDivO : Option ℚ → Option ℚ → PVal
  | none, _ => .nan
  | some _, none => .nan
  | some q, some d =>
      if d = 0 then
        if q = 0 then .nan else if 0 < q then .posInf else .negInf
      else .val (q / d)

/-- IEEE-style multiplication of a pandas float by a positive rational
constant (NaN and ±inf are absorbing, as in `* 100` / `* 1000`). -/
def pdMul (p : PVal) (k : ℚ) : PVal :=
  match p with
  | .val q => .val (q * k)
  | x => x

/-- `t.groupby(g)`'s group labels: the distinct values of column `g`
over the rows. -/
def groupKeys (t : Table) (g : String) : List Val :=
  (t.rows.map (fun r => r g)).dedup

/-- The rows of group `gk` of `t.groupby(g)`. -/
def groupRows (t : Table) (g : String) (gk : Val) : List (String → Val) :=
  t.rows.filter (fun r => decide (r g = gk))

/-- `t.groupby([g, c])[v].sum()` at the pair `(gk, ck)`: the sum of
column `v` over the rows whose `g` is `gk` and whose `c` is `ck`. -/
def pairSum (t : Table) (g c v : String) (gk ck : Val) : ℚ :=
  ((t.rows.filter (fun r => decide (r g = gk ∧ r c = ck))).map
    (fun r => (r v).toQ)).sum

/-- Whether some row realizes the pair `(gk, ck)` — i.e. whether the
pair is present in `t.groupby([g, c])[v].sum()` before `unstack`. -/
def hasPair (t : Table) (g c : String) (gk ck : Val) : Bool :=
  t.rows.any (fun r => decide (r g = gk ∧ r c = ck))

/-- `t.groupby(g)[v].sum()` at group `gk` — the divisor series of the
proportions pipeline. -/
def groupTotal (t : Table) (g v : String) (gk : Val) : ℚ :=
  ((groupRows t g gk).map (fun r => (r v).toQ)).sum

/-- One cell of
`t.groupby([g,c])[v].sum().unstack().div(t.groupby(g)[v].sum(), axis=0) * 100`:
`unstack` leaves NaN at pairs with no row, then the division by the
group total and the `* 100` follow IEEE float semantics. -/
def propCell (t : Table) (g c v : String) (gk ck : Val) : PVal :=
  pdMul
    (pdDivO
      (if hasPair t g c gk ck then some (pairSum t g c v gk ck) else none)
      (some (groupTotal t g v gk)))
    100

/-- The `proportions_by_age_type` / `proportions_by_year_type` pipeline
of `tbi.py` (lines 62–67 and 109–114), generic in the group key `g`,
category key `c` and value key `v` as in the spec's
`proportionsByGroup`.  In evaluation order, `groupby([g, c])` raises
`KeyError g` then `KeyError c`, and `[v]` raises `KeyError v`, when the
column is absent.  The result grid is indexed by the group labels and
the category labels present in the data (`none` outside the grid). -/
def proportionsByGroup (t : Table) (g c v : String) :
    Except PdError (Val → Val → Option PVal) :=
  if g ∈ t.cols then
    if c ∈ t.cols then
      if v ∈ t.cols then
        .ok (fun gk ck =>
          if gk ∈ groupKeys t g ∧ ck ∈ groupKeys t c then
            some (propCell t g c v gk ck)
          else none)
      else .error (.keyError v)
    else .error (.keyError c)
  else .error (.keyError g)

/-- The pass-through behind the violin plot (`tbi.py` lines 81–89):
`(injury_mechanism, rate_est)` pairs handed raw to the charting
collaborator — the spec's `ratesByMechanism`. -/
def ratesByMechanism (t : Table) : Except PdError (List (Val × Val)) :=
  if "injury_mechanism" ∈ t.cols then
    if "rate_est" ∈ t.cols then
      .ok (t.rows.map (fun r => (r "injury_mechanism", r "rate_est")))
    else .error (.keyError "rate_est")
  else .error (.keyError "injury_mechanism")

/-- The pass-through behind the scatter plot (`tbi.py` lines 192–202):
raw `(year, diagnosed, severity, service)` rows — the spec's
`correlationSeries`. -/
def correlationSeries (t : Table) :
    Except PdError (List (Val × Val × Val × Val)) :=
  if "year" ∈ t.cols then
    if "diagnosed" ∈ t.cols then
      if "severity" ∈ t.cols then
        if "service" ∈ t.cols then
          .ok (t.rows.map (fun r =>
            (r "year", r "diagnosed", r "severity", r "service")))
        else .error (.keyError "service")
      else .error (.keyError "severity")
    else .error (.keyError "diagnosed")
  else .error (.keyError "year")

/-- The fixed recruitment mapping of `tbi.py` lines 143–148. -/
def recruitment_numbers : String → Option ℚ
  | "Army" => some 4849638
  | "Navy" => some 3010086
  | "Marines" => some 1738625
  | "Air Force" => some 2987583
  | _ => none

/-- `series.map(recruitment_numbers)` on one cell: a non-string key, or
a string absent from the dict, maps to NaN (`none`). -/
def recruitmentOf : Val → Option ℚ
  | .str s => recruitment_numbers s
  | .num _ => none

/-- The distinct services of the military table
(`military.groupby('service')`'s group labels). -/
def serviceKeys (t : Table) : List Val :=
  (t.rows.map (fun r => r "service")).dedup

/-- `military.groupby('service').agg({'diagnosed': 'sum'})` at service
`s`. -/
def diagnosedSum (t : Table) (s : Val) : ℚ :=
  ((t.rows.filter (fun r => decide (r "service" = s))).map
    (fun r => (r "diagnosed").toQ)).sum

/-- One row of the `military_service_data` result: the service, its
diagnosed sum, the `recruited` column from
`map(recruitment_numbers)` (NaN = `none` when the service is missing
from the dict), and `diagnosed_per_1000 = diagnosed / recruited * 1000`
under IEEE semantics. -/
structure MilOut where
  service : Val
  diagnosed : ℚ
  recruited : Option ℚ
  diagnosed_per_1000 : PVal
deriving DecidableEq, Repr

/-- Builds the output record of `military_service_data` from a
`(service, diagnosed-sum)` pair. -/
def milOutOfPair (p : Val × ℚ) : MilOut :=
  ⟨p.1, p.2, recruitmentOf p.1,
    pdMul (pdDivO (some p.2) (recruitmentOf p.1)) 1000⟩

/-- Ascending insertion by the diagnosed sum (second component). -/
def insertAsc (x : Val × ℚ) : List (Val × ℚ) → List (Val × ℚ)
  | [] => [x]
  | y :: ys => if x.2 ≤ y.2 then x :: y :: ys else y :: insertAsc x ys

/-- `sort_values(by='diagnosed', ascending=True)` on the grouped list. -/
def sortByCount : List (Val × ℚ) → List (Val × ℚ)
  | [] => []
  | x :: xs => insertAsc x (sortByCount xs)

/-- The `military_service_data` pipeline of `tbi.py` lines 139–152:
group by service, sum `diagnosed`, sort ascending by the sum, join the
recruitment dict via `map` (NaN when absent), and compute
`diagnosed_per_1000 = diagnosed / recruited * 1000`.  `groupby` raises
`KeyError 'service'` and the aggregation `KeyError 'diagnosed'` when
the column is absent. -/
def military_service_data (t : Table) : Except PdError (List MilOut) :=
  if "service" ∈ t.cols then
    if "diagnosed" ∈ t.cols then
      .ok ((sortByCount ((serviceKeys t).map
        (fun s => (s, diagnosedSum t s)))).map milOutOfPair)
    else .error (.keyError "diagnosed")
  else .error (.keyError "service")

/-- The three loaded tables of `load_data` (`tbi.py` lines 16–21). -/
structure Tables where
  age : Table
  military : Table
  year : Table

/-- The loader's process state: the `@st.cache_data` memo cell and the
log of file paths read from disk so far. -/
structure LoaderState where
  cached : Option Tables
  readLog : List String

/-- The memoized `load_data` of `tbi.py` lines 16–21 (`@st.cache_data`):
on a cache miss it reads the three CSVs from `disk` and fills the
cache; on a hit it returns the cached tables without touching disk.
`disk` maps a file path to its parsed table. -/
def load_data (disk : String → Table) :
    LoaderState → Tables × LoaderState
  | ⟨some t, log⟩ => (t, ⟨some t, log⟩)
  | ⟨none, log⟩ =>
      let t : Tables :=
        ⟨disk "tbi_age.csv", disk "tbi_military.csv", disk "tbi_year.csv"⟩
      (t, ⟨some t, log ++ ["tbi_age.csv", "tbi_military.csv", "tbi_year.csv"]⟩)

/-- The value a grid cell contributes to a stacked bar: its finite
value, with NaN / absent cells contributing 0 (how the charting layer
treats missing data). -/
def cellContrib : Option PVal → ℚ
  | some (.val q) => q
  | _ => 0

/-- Iterated calls to the memoized loader within one process, starting
from the fresh state (empty cache, nothing read). -/
def runCalls (disk : String → Table) : Nat → Tables × LoaderState
  | 0 => load_data disk ⟨none, []⟩
  | n + 1 => load_data disk (runCalls disk n).2

/-- The distinct `(group, category)` pairs present in the data: the
index of `t.groupby([g, c])[v].sum()` before `unstack`. -/
def pairKeys (t : Table) (g c : String) : List (Val × Val) :=
  (t.rows.map (fun r => (r g, r c))).dedup

/-- A civilian row with the three columns the proportions pipeline
touches. -/
def mkAgeRow (ag ty : String) (n : ℚ) : String → Val :=
  fun s =>
    if s = "age_group" then .str ag
    else if s = "type" then .str ty
    else if s = "number_est" then .num n
    else .str ""

/-- The spec's civilian scenario table:
rows `{0-4, Fall, 100}` and `{0-4, Other, 50}`. -/
def ageT : Table :=
  ⟨["age_group", "type", "number_est"],
   [mkAgeRow "0-4" "Fall" 100, mkAgeRow "0-4" "Other" 50]⟩

/-- A civilian table where the pair `(5-14, Other)` has no row although
both the group `5-14` and the category `Other` occur. -/
def ageGapT : Table :=
  ⟨["age_group", "type", "number_est"],
   [mkAgeRow "0-4" "Fall" 100, mkAgeRow "0-4" "Other" 50,
    mkAgeRow "5-14" "Fall" 30]⟩

/-- A civilian table whose only group `0-4` has total value 0. -/
def zeroT : Table :=
  ⟨["age_group", "type", "number_est"],
   [mkAgeRow "0-4" "Fall" 0, mkAgeRow "0-4" "Other" 0]⟩

/-- The result grid of `proportionsByGroup` on `ageT`, written out so
concrete instantiations can name it. -/
def ageF : Val → Val → Option PVal := fun gk ck =>
  if gk ∈ groupKeys ageT "age_group" ∧ ck ∈ groupKeys ageT "type" then
    some (propCell ageT "age_group" "type" "number_est" gk ck)
  else none

/-- A military row with the two columns `military_service_data`
touches. -/
def mkMilRow (sv : String) (n : ℚ) : String → Val :=
  fun s =>
    if s = "service" then .str sv
    else if s = "diagnosed" then .num n
    else .str ""

/-- The spec's military scenario table: one row `{Marines, 1000}`. -/
def milT : Table := ⟨["service", "diagnosed"], [mkMilRow "Marines" 1000]⟩

/-- A military table whose only service, `Coast Guard`, is absent from
the recruitment mapping. -/
def coastT : Table :=
  ⟨["service", "diagnosed"], [mkMilRow "Coast Guard" 500]⟩

/-- A table none of whose columns is requested by any operation. -/
def noColT : Table := ⟨["foo"], []⟩

section Helpers

variable {α κ : Type} [DecidableEq κ]

lemma sum_if_single_of_not_mem (K : List κ) (x : κ) (a : ℚ) (hx : x ∉ K) :
    (K.map (fun k => if x = k then a else 0)).sum = 0 := by
  induction K with
  | nil => simp
  | cons y K ih =>
      have hxy : x ≠ y := fun h => hx (h ▸ List.mem_cons_self y K)
      have hxK : x ∉ K := fun h => hx (List.mem_cons_of_mem y h)
      simp [hxy, ih hxK]

lemma sum_if_single (K : List κ) (x : κ) (a : ℚ) (hK : K.Nodup) (hx : x ∈ K) :
    (K.map (fun k => if x = k then a else 0)).sum = a := by
  induction K with
  | nil => simp at hx
  | cons y K ih =>
      rcases List.mem_cons.mp hx with h | h
      · subst h
        have hxK : x ∉ K := (List.nodup_cons.mp hK).1
        simp [sum_if_single_of_not_mem K x a hxK]
      · have hyx : x ≠ y := by
          rintro rfl
          exact (List.nodup_cons.mp hK).1 h
        simp [hyx, ih (List.nodup_cons.mp hK).2 h]

/-- Summing a list fiberwise over the distinct values of a key function
preserves the total: the heart of pandas `groupby(...).sum()`. -/
lemma sum_partition (L : List α) (key : α → κ) (f : α → ℚ) (K : List κ)
    (hK : K.Nodup) (hmem : ∀ r ∈ L, key r ∈ K) :
    (K.map (fun k =>
      ((L.filter (fun r => decide (key r = k))).map f).sum)).sum
      = (L.map f).sum := by
  induction L with
  | nil => simp
  | cons a L ih =>
      have h1 : ∀ k : κ,
          (((a :: L).filter (fun r => decide (key r = k))).map f).sum
            = (if key a = k then f a else 0)
              + ((L.filter (fun r => decide (key r = k))).map f).sum := by
        intro k
        by_cases h : key a = k
        · simp [List.filter_cons, h]
        · simp [List.filter_cons, h]
      have h2 : (K.map (fun k =>
          (((a :: L).filter (fun r => decide (key r = k))).map f).sum)).sum
          = (K.map (fun k => (if key a = k then f a else 0)
              + ((L.filter (fun r => decide (key r = k))).map f).sum)).sum := by
        congr 1
        exact List.map_congr_left (fun k _ => h1 k)
      rw [h2, List.sum_map_add,
        sum_if_single K (key a) (f a) hK (hmem a (List.mem_cons_self a L)),
        ih (fun r hr => hmem r (List.mem_cons_of_mem a hr))]
      simp

end Helpers

lemma pairSum_eq_filter_groupRows (t : Table) (g c v : String) (gk ck : Val) :
    pairSum t g c v gk ck
      = (((groupRows t g gk).filter (fun r => decide (r c = ck))).map
          (fun r => (r v).toQ)).sum := by
  unfold pairSum groupRows
  rw [List.filter_filter]
  have hf : t.rows.filter (fun r => decide (r g = gk ∧ r c = ck))
      = t.rows.filter (fun a => decide (a c = ck) && decide (a g = gk)) := by
    apply List.filter_congr
    intro r _
    by_cases h1 : r g = gk <;> by_cases h2 : r c = ck <;> simp [h1, h2]
  rw [hf]

lemma mem_groupKeys_of_groupRows_mem {t : Table} {g : String} {gk : Val}
    {r : String → Val} (hr : r ∈ groupRows t g gk) : gk ∈ groupKeys t g := by
  have hrt : r ∈ t.rows := List.mem_of_mem_filter hr
  have hrg : r g = gk := by
    have := List.of_mem_filter hr
    exact of_decide_eq_true this
  exact List.mem_dedup.mpr (hrg ▸ List.mem_map_of_mem (fun r => r g) hrt)

lemma groupRows_eq_nil_of_not_mem {t : Table} {g : String} {gk : Val}
    (h : gk ∉ groupKeys t g) : groupRows t g gk = [] := by
  rcases hne : groupRows t g gk with _ | ⟨r, l⟩
  · rfl
  · exact absurd (mem_groupKeys_of_groupRows_mem (hne ▸ List.mem_cons_self r l)) h

lemma mem_groupKeys_of_total_ne_zero {t : Table} {g v : String} {gk : Val}
    (h : groupTotal t g v gk ≠ 0) : gk ∈ groupKeys t g := by
  by_contra hmem
  exact h (by simp [groupTotal, groupRows_eq_nil_of_not_mem hmem])

lemma pairSum_eq_zero_of_not_hasPair {t : Table} {g c v : String} {gk ck : Val}
    (h : hasPair t g c gk ck = false) : pairSum t g c v gk ck = 0 := by
  unfold hasPair at h
  have hfilter : t.rows.filter (fun r => decide (r g = gk ∧ r c = ck)) = [] := by
    rw [List.filter_eq_nil_iff]
    intro r hr
    have hne := List.any_eq_false.mp h r hr
    simpa using hne
  unfold pairSum
  rw [hfilter]
  simp

lemma pairSum_nonneg {t : Table} {v : String} (g c : String) (gk ck : Val)
    (hnn : ∀ r ∈ t.rows, 0 ≤ (r v).toQ) : 0 ≤ pairSum t g c v gk ck := by
  unfold pairSum
  apply List.sum_nonneg
  intro x hx
  rcases List.mem_map.mp hx with ⟨r, hr, rfl⟩
  exact hnn r (List.mem_of_mem_filter hr)

lemma pairSum_le_groupTotal {t : Table} {v : String} (g c : String) (gk ck : Val)
    (hnn : ∀ r ∈ t.rows, 0 ≤ (r v).toQ) :
    pairSum t g c v gk ck ≤ groupTotal t g v gk := by
  rw [pairSum_eq_filter_groupRows]
  unfold groupTotal
  apply List.Sublist.sum_le_sum
  · exact List.Sublist.map _ (List.filter_sublist _)
  · intro x hx
    rcases List.mem_map.mp hx with ⟨r, hr, rfl⟩
    exact hnn r (List.mem_of_mem_filter hr)

/-- Summing the pair sums of one group over all category labels gives
the group's total. -/
lemma sum_pairSum_eq_groupTotal (t : Table) (g c v : String) (gk : Val) :
    ((groupKeys t c).map (fun ck => pairSum t g c v gk ck)).sum
      = groupTotal t g v gk := by
  have h1 : ∀ ck ∈ groupKeys t c,
      pairSum t g c v gk ck
        = (((groupRows t g gk).filter (fun r => decide (r c = ck))).map
            (fun r => (r v).toQ)).sum :=
    fun ck _ => pairSum_eq_filter_groupRows t g c v gk ck
  rw [List.map_congr_left h1]
  exact sum_partition (groupRows t g gk) (fun r => r c) (fun r => (r v).toQ)
    (groupKeys t c) (List.nodup_dedup _)
    (fun r hr => List.mem_dedup.mpr
      (List.mem_map_of_mem (fun r => r c) (List.mem_of_mem_filter hr)))

lemma proportionsByGroup_ok {t : Table} {g c v : String}
    (hg : g ∈ t.cols) (hc : c ∈ t.cols) (hv : v ∈ t.cols) :
    proportionsByGroup t g c v = .ok (fun gk ck =>
      if gk ∈ groupKeys t g ∧ ck ∈ groupKeys t c then
        some (propCell t g c v gk ck)
      else none) := by
  simp [proportionsByGroup, hg, hc, hv]

lemma proportionsByGroup_ok_elim {t : Table} {g c v : String}
    {F : Val → Val → Option PVal} (hok : proportionsByGroup t g c v = .ok F) :
    F = fun gk ck =>
      if gk ∈ groupKeys t g ∧ ck ∈ groupKeys t c then
        some (propCell t g c v gk ck)
      else none := by
  unfold proportionsByGroup at hok
  split_ifs at hok with h1 h2 h3
  simpa using hok.symm

lemma propCell_eq_of_total_ne_zero {t : Table} {g c v : String} {gk ck : Val}
    (h : groupTotal t g v gk ≠ 0) (hp : hasPair t g c gk ck = true) :
    propCell t g c v gk ck
      = .val (pairSum t g c v gk ck / groupTotal t g v gk * 100) := by
  simp [propCell, hp, pdDivO, h, pdMul]

lemma propCell_nan_of_not_hasPair {t : Table} {g c v : String} {gk ck : Val}
    (hp : hasPair t g c gk ck = false) : propCell t g c v gk ck = .nan := by
  simp [propCell, hp, pdDivO, pdMul]

lemma cellContrib_propCell {t : Table} {g c v : String} {gk ck : Val}
    (h : groupTotal t g v gk ≠ 0) :
    cellContrib (some (propCell t g c v gk ck))
      = pairSum t g c v gk ck / groupTotal t g v gk * 100 := by
  rcases hp : hasPair t g c gk ck with _ | _
  · rw [propCell_nan_of_not_hasPair hp, pairSum_eq_zero_of_not_hasPair hp]
    simp [cellContrib]
  · rw [propCell_eq_of_total_ne_zero h hp]
    simp [cellContrib]

/-- C1: for every input table and every group key whose total summed
value is strictly positive, the percentages produced by
`proportionsByGroup` (group-by-sum, unstack, divide-by-group-total,
times-100) for that group key sum to 100 — exactly, in the rational
embedding, which is the "up to floating tolerance" statement. -/
theorem proportions_sum_to_100 (t : Table) (g c v : String) (gk : Val)
    (F : Val → Val → Option PVal) (hok : proportionsByGroup t g c v = .ok F)
    (hpos : 0 < groupTotal t g v gk) :
    ((groupKeys t c).map (fun ck => cellContrib (F gk ck))).sum = 100 := by
  have hF := proportionsByGroup_ok_elim hok
  subst hF
  have hne : groupTotal t g v gk ≠ 0 := ne_of_gt hpos
  have hgk : gk ∈ groupKeys t g := mem_groupKeys_of_total_ne_zero hne
  have h1 : ∀ ck ∈ groupKeys t c,
      cellContrib (if gk ∈ groupKeys t g ∧ ck ∈ groupKeys t c then
          some (propCell t g c v gk ck) else none)
        = pairSum t g c v gk ck * (100 / groupTotal t g v gk) := by
    intro ck hck
    rw [if_pos ⟨hgk, hck⟩, cellContrib_propCell hne]
    ring
  rw [List.map_congr_left h1,
    List.sum_map_mul_right (groupKeys t c) (fun ck => pairSum t g c v gk ck)
      (100 / groupTotal t g v gk),
    sum_pairSum_eq_groupTotal]
  field_simp

/-- C3: a `(groupKey, categoryKey)` combination inside the result grid
that no input row realizes is not an error: the pipeline still returns
`.ok`, the combination carries no percentage (it is the NaN
missing-value marker that `unstack` leaves for absent combinations —
the output is sparse by category per group), and it contributes 0 to
the group's stacked bar. -/
theorem proportions_missing_pair_is_nan (t : Table) (g c v : String)
    (gk ck : Val) (hg : g ∈ t.cols) (hc : c ∈ t.cols) (hv : v ∈ t.cols)
    (hgk : gk ∈ groupKeys t g) (hck : ck ∈ groupKeys t c)
    (hnp : hasPair t g c gk ck = false) :
    ∃ F, proportionsByGroup t g c v = .ok F
      ∧ F gk ck = some PVal.nan ∧ cellContrib (F gk ck) = 0 := by
  refine ⟨_, proportionsByGroup_ok hg hc hv, ?_⟩
  rw [if_pos ⟨hgk, hck⟩, propCell_nan_of_not_hasPair hnp]
  exact ⟨rfl, rfl⟩

/-- C4: a group key present in the table whose total summed value is 0
does not make `proportionsByGroup` fail: the pipeline returns `.ok`,
and every category of that group gets the NaN (undefined) percentage
that the 0/0 division produces, surfaced to the caller instead of a
crash.  (Values are nonnegative, per the data model's
`number_est ≥ 0` invariant.) -/
theorem proportions_zero_total_yields_nan (t : Table) (g c v : String)
    (gk : Val) (hg : g ∈ t.cols) (hc : c ∈ t.cols) (hv : v ∈ t.cols)
    (hnn : ∀ r ∈ t.rows, 0 ≤ (r v).toQ)
    (hgk : gk ∈ groupKeys t g) (h0 : groupTotal t g v gk = 0) :
    ∃ F, proportionsByGroup t g c v = .ok F
      ∧ ∀ ck ∈ groupKeys t c, F gk ck = some PVal.nan := by
  refine ⟨_, proportionsByGroup_ok hg hc hv, ?_⟩
  intro ck hck
  rw [if_pos ⟨hgk, hck⟩]
  rcases hp : hasPair t g c gk ck with _ | _
  · rw [propCell_nan_of_not_hasPair hp]
  · have h1 : pairSum t g c v gk ck = 0 :=
      le_antisymm (h0 ▸ pairSum_le_groupTotal g c gk ck hnn)
        (pairSum_nonneg g c gk ck hnn)
    simp [propCell, hp, h1, h0, pdDivO, pdMul]

/-- C10: with nonnegative values and a strictly positive group total,
every finite percentage in the output of `proportionsByGroup` for that
group lies between 0 and 100 inclusive. -/
theorem proportions_percent_in_range (t : Table) (g c v : String)
    (gk ck : Val) (q : ℚ) (F : Val → Val → Option PVal)
    (hnn : ∀ r ∈ t.rows, 0 ≤ (r v).toQ)
    (hpos : 0 < groupTotal t g v gk)
    (hok : proportionsByGroup t g c v = .ok F)
    (hq : F gk ck = some (.val q)) : 0 ≤ q ∧ q ≤ 100 := by
  have hF := proportionsByGroup_ok_elim hok
  subst hF
  have hq1 : (if gk ∈ groupKeys t g ∧ ck ∈ groupKeys t c then
      some (propCell t g c v gk ck) else none) = some (PVal.val q) := hq
  by_cases hmem : gk ∈ groupKeys t g ∧ ck ∈ groupKeys t c
  · rw [if_pos hmem] at hq1
    rcases hp : hasPair t g c gk ck with _ | _
    · rw [propCell_nan_of_not_hasPair hp] at hq1
      simp at hq1
    · rw [propCell_eq_of_total_ne_zero (ne_of_gt hpos) hp] at hq1
      have hq' : pairSum t g c v gk ck / groupTotal t g v gk * 100 = q := by
        simpa using hq1
      subst hq'
      constructor
      · exact mul_nonneg
          (div_nonneg (pairSum_nonneg g c gk ck hnn) hpos.le) (by norm_num)
      · have hle : pairSum t g c v gk ck / groupTotal t g v gk ≤ 1 :=
          (div_le_one hpos).mpr (pairSum_le_groupTotal g c gk ck hnn)
        calc pairSum t g c v gk ck / groupTotal t g v gk * 100
            ≤ 1 * 100 := mul_le_mul_of_nonneg_right hle (by norm_num)
          _ = 100 := by norm_num
  · rw [if_neg hmem] at hq1
    cases hq1

/-- C6: the group-by-sum step preserves total mass: summing `v` over
all `(groupKey, categoryKey)` cells of `t.groupby([g, c])[v].sum()`
equals summing `v` over all input rows — no row dropped, none counted
twice. -/
theorem groupby_sum_preserves_mass (t : Table) (g c v : String) :
    ((pairKeys t g c).map (fun p => pairSum t g c v p.1 p.2)).sum
      = (t.rows.map (fun r => (r v).toQ)).sum := by
  have h1 : ∀ p ∈ pairKeys t g c,
      pairSum t g c v p.1 p.2
        = ((t.rows.filter (fun r => decide ((r g, r c) = p))).map
            (fun r => (r v).toQ)).sum := by
    intro p _
    have hf : t.rows.filter (fun r => decide (r g = p.1 ∧ r c = p.2))
        = t.rows.filter (fun r => decide ((r g, r c) = p)) := by
      apply List.filter_congr
      intro r _
      simp [decide_eq_decide, Prod.ext_iff]
    unfold pairSum
    rw [hf]
  rw [List.map_congr_left h1]
  exact sum_partition t.rows (fun r => (r g, r c)) (fun r => (r v).toQ)
    (pairKeys t g c) (List.nodup_dedup _)
    (fun r hr => List.mem_dedup.mpr (List.mem_map_of_mem _ hr))

lemma mem_insertAsc {x y : Val × ℚ} {l : List (Val × ℚ)} :
    y ∈ insertAsc x l ↔ y = x ∨ y ∈ l := by
  induction l with
  | nil => simp [insertAsc]
  | cons a l ih =>
      unfold insertAsc
      by_cases h : x.2 ≤ a.2
      · simp [h]
      · simp only [h, if_false, List.mem_cons, ih]
        tauto

lemma mem_sortByCount {y : Val × ℚ} {l : List (Val × ℚ)} :
    y ∈ sortByCount l ↔ y ∈ l := by
  induction l with
  | nil => simp [sortByCount]
  | cons a l ih => simp [sortByCount, mem_insertAsc, ih]

lemma military_service_data_ok {t : Table}
    (hs : "service" ∈ t.cols) (hd : "diagnosed" ∈ t.cols) :
    military_service_data t = .ok ((sortByCount ((serviceKeys t).map
      (fun s => (s, diagnosedSum t s)))).map milOutOfPair) := by
  simp [military_service_data, hs, hd]

lemma military_service_data_ok_elim {t : Table} {out : List MilOut}
    (hok : military_service_data t = .ok out) :
    out = (sortByCount ((serviceKeys t).map
      (fun s => (s, diagnosedSum t s)))).map milOutOfPair := by
  unfold military_service_data at hok
  split_ifs at hok
  simpa using hok.symm

lemma recruitment_pos {s : String} {R : ℚ}
    (h : recruitment_numbers s = some R) : 0 < R := by
  unfold recruitment_numbers at h
  split at h <;> first
    | (simp only [Option.some.injEq] at h; subst h; norm_num)
    | simp at h

/-- C2: `military_service_data` first sums diagnosed counts per
service; every service of the table that the fixed recruitment mapping
covers appears in the output with `recruited` equal to its constant and
`diagnosed_per_1000` equal to the diagnosed sum divided by that
constant, times 1000. -/
theorem military_per_capita (t : Table) (out : List MilOut)
    (hok : military_service_data t = .ok out) (s : Val) (R : ℚ)
    (hs : s ∈ serviceKeys t) (hR : recruitmentOf s = some R) :
    (⟨s, diagnosedSum t s, some R,
      .val (diagnosedSum t s / R * 1000)⟩ : MilOut) ∈ out := by
  have hout := military_service_data_ok_elim hok
  subst hout
  have hRpos : 0 < R := by
    rcases s with sname | q
    · exact recruitment_pos (by simpa [recruitmentOf] using hR)
    · simp [recruitmentOf] at hR
  have hmem : (s, diagnosedSum t s) ∈ sortByCount ((serviceKeys t).map
      (fun s => (s, diagnosedSum t s))) :=
    mem_sortByCount.mpr (List.mem_map_of_mem _ hs)
  have himg := List.mem_map_of_mem milOutOfPair hmem
  have heq : milOutOfPair (s, diagnosedSum t s)
      = ⟨s, diagnosedSum t s, some R,
          .val (diagnosedSum t s / R * 1000)⟩ := by
    simp [milOutOfPair, hR, pdDivO, pdMul, ne_of_gt hRpos]
  rw [heq] at himg
  exact himg

/-- C5 (amended): a service present in the military table but absent
from the recruitment mapping is never treated as recruitment zero: its
output row carries the missing-value marker (`none`) for `recruited`
and NaN for `diagnosed_per_1000`. -/
theorem military_missing_service_undefined (t : Table) (out : List MilOut)
    (hok : military_service_data t = .ok out) (s : Val)
    (hs : s ∈ serviceKeys t) (hR : recruitmentOf s = none) :
    (⟨s, diagnosedSum t s, none, PVal.nan⟩ : MilOut) ∈ out := by
  have hout := military_service_data_ok_elim hok
  subst hout
  have hmem : (s, diagnosedSum t s) ∈ sortByCount ((serviceKeys t).map
      (fun s => (s, diagnosedSum t s))) :=
    mem_sortByCount.mpr (List.mem_map_of_mem _ hs)
  have himg := List.mem_map_of_mem milOutOfPair hmem
  have heq : milOutOfPair (s, diagnosedSum t s)
      = ⟨s, diagnosedSum t s, none, PVal.nan⟩ := by
    simp [milOutOfPair, hR, pdDivO, pdMul]
  rw [heq] at himg
  exact himg

/-- C7: the loader reads each of the three source files exactly once
per process: after any number of calls the read log still holds each
path once, and every call returns the tables loaded by the first. -/
theorem load_data_reads_once (disk : String → Table) (n : Nat) :
    runCalls disk n =
      (⟨disk "tbi_age.csv", disk "tbi_military.csv", disk "tbi_year.csv"⟩,
       ⟨some ⟨disk "tbi_age.csv", disk "tbi_military.csv",
         disk "tbi_year.csv"⟩,
        ["tbi_age.csv", "tbi_military.csv", "tbi_year.csv"]⟩) := by
  induction n with
  | zero => rfl
  | succ n ih => simp [runCalls, ih, load_data]

/-- C8: each of the four operations, asked to work on a table missing
one of its requested columns, fails with a `KeyError` identifying a
missing requested column instead of silently continuing. -/
theorem ops_error_on_missing_column (t : Table) :
    (∀ g c v : String, ¬ (g ∈ t.cols ∧ c ∈ t.cols ∧ v ∈ t.cols) →
      ∃ m, m ∈ [g, c, v] ∧ m ∉ t.cols
        ∧ proportionsByGroup t g c v = .error (.keyError m))
    ∧ (¬ ("injury_mechanism" ∈ t.cols ∧ "rate_est" ∈ t.cols) →
      ∃ m, m ∈ ["injury_mechanism", "rate_est"] ∧ m ∉ t.cols
        ∧ ratesByMechanism t = .error (.keyError m))
    ∧ (¬ ("service" ∈ t.cols ∧ "diagnosed" ∈ t.cols) →
      ∃ m, m ∈ ["service", "diagnosed"] ∧ m ∉ t.cols
        ∧ military_service_data t = .error (.keyError m))
    ∧ (¬ ("year" ∈ t.cols ∧ "diagnosed" ∈ t.cols ∧ "severity" ∈ t.cols
          ∧ "service" ∈ t.cols) →
      ∃ m, m ∈ ["year", "diagnosed", "severity", "service"] ∧ m ∉ t.cols
        ∧ correlationSeries t = .error (.keyError m)) := by
  refine ⟨?_, ?_, ?_, ?_⟩
  · intro g c v h
    by_cases hg : g ∈ t.cols
    · by_cases hc : c ∈ t.cols
      · by_cases hv : v ∈ t.cols
        · exact absurd ⟨hg, hc, hv⟩ h
        · exact ⟨v, by simp, hv, by simp [proportionsByGroup, hg, hc, hv]⟩
      · exact ⟨c, by simp, hc, by simp [proportionsByGroup, hg, hc]⟩
    · exact ⟨g, by simp, hg, by simp [proportionsByGroup, hg]⟩
  · intro h
    by_cases h1 : "injury_mechanism" ∈ t.cols
    · by_cases h2 : "rate_est" ∈ t.cols
      · exact absurd ⟨h1, h2⟩ h
      · exact ⟨"rate_est", by simp, h2, by simp [ratesByMechanism, h1, h2]⟩
    · exact ⟨"injury_mechanism", by simp, h1, by simp [ratesByMechanism, h1]⟩
  · intro h
    by_cases h1 : "service" ∈ t.cols
    · by_cases h2 : "diagnosed" ∈ t.cols
      · exact absurd ⟨h1, h2⟩ h
      · exact ⟨"diagnosed", by simp, h2,
          by simp [military_service_data, h1, h2]⟩
    · exact ⟨"service", by simp, h1, by simp [military_service_data, h1]⟩
  · intro h
    by_cases h1 : "year" ∈ t.cols
    · by_cases h2 : "diagnosed" ∈ t.cols
      · by_cases h3 : "severity" ∈ t.cols
        · by_cases h4 : "service" ∈ t.cols
          · exact absurd ⟨h1, h2, h3, h4⟩ h
          · exact ⟨"service", by simp, h4,
              by simp [correlationSeries, h1, h2, h3, h4]⟩
        · exact ⟨"severity", by simp, h3,
            by simp [correlationSeries, h1, h2, h3]⟩
      · exact ⟨"diagnosed", by simp, h2, by simp [correlationSeries, h1, h2]⟩
    · exact ⟨"year", by simp, h1, by simp [correlationSeries, h1]⟩

/-- C9: the four Aggregation Engine operations are deterministic
functions of their input table alone: identical inputs give identical
outputs. -/
theorem aggregation_deterministic (t₁ t₂ : Table) (g c v : String)
    (h : t₁ = t₂) :
    proportionsByGroup t₁ g c v = proportionsByGroup t₂ g c v
    ∧ ratesByMechanism t₁ = ratesByMechanism t₂
    ∧ military_service_data t₁ = military_service_data t₂
    ∧ correlationSeries t₁ = correlationSeries t₂ := by
  subst h
  exact ⟨rfl, rfl, rfl, rfl⟩

/-- C5 counterexample: on `coastT`, whose only service `Coast Guard` is
absent from the recruitment mapping, `military_service_data` reports no
error at all — it returns `.ok` with a silent NaN row, refuting the
claim that a configuration error naming the offending service is
reported. -/
theorem military_missing_service_no_error :
    military_service_data coastT
      = .ok [⟨.str "Coast Guard", 500, none, PVal.nan⟩]
    ∧ ∀ e, military_service_data coastT ≠ .error e := by
  have hok : military_service_data coastT
      = .ok [⟨.str "Coast Guard", 500, none, PVal.nan⟩] := by
    simp [military_service_data, coastT, mkMilRow, serviceKeys, diagnosedSum,
      sortByCount, insertAsc, milOutOfPair, recruitmentOf, recruitment_numbers,
      pdMul, pdDivO, Val.toQ, List.dedup, List.filter]
  refine ⟨hok, fun e he => ?_⟩
  rw [hok] at he
  cases he

/-- Witness for C1: on the spec's civilian scenario table the `0-4`
percentages (Fall 200/3, Other 100/3) sum to 100. -/
theorem proportions_sum_to_100_witness :
    0 < groupTotal ageT "age_group" "number_est" (.str "0-4")
    ∧ ((groupKeys ageT "type").map
        (fun ck => cellContrib (ageF (.str "0-4") ck))).sum = 100 := by
  have hpos : 0 < groupTotal ageT "age_group" "number_est" (.str "0-4") := by
    simp [groupTotal, groupRows, ageT, mkAgeRow, Val.toQ, List.filter]
    norm_num
  exact ⟨hpos, proportions_sum_to_100 ageT "age_group" "type" "number_est"
    (.str "0-4") ageF rfl hpos⟩

/-- Witness for C2: the Marines scenario — diagnosed 1000, recruitment
1,738,625 — yields `diagnosed_per_1000 = 1000/1738625 × 1000 ≈ 0.5752`. -/
theorem military_per_capita_witness :
    military_service_data milT
      = .ok [⟨.str "Marines", 1000, some 1738625,
          .val (1000 / 1738625 * 1000)⟩]
    ∧ (⟨.str "Marines", 1000, some 1738625,
        .val (1000 / 1738625 * 1000)⟩ : MilOut)
      ∈ [(⟨.str "Marines", 1000, some 1738625,
          .val (1000 / 1738625 * 1000)⟩ : MilOut)]
    ∧ |(1000 : ℚ) / 1738625 * 1000 - 5752 / 10000| < 1 / 10000 := by
  have hok : military_service_data milT
      = .ok [⟨.str "Marines", 1000, some 1738625,
          .val (1000 / 1738625 * 1000)⟩] := by
    simp [military_service_data, milT, mkMilRow, serviceKeys, diagnosedSum,
      sortByCount, insertAsc, milOutOfPair, recruitmentOf, recruitment_numbers,
      pdMul, pdDivO, Val.toQ, List.dedup, List.filter]
  have hd : diagnosedSum milT (.str "Marines") = 1000 := by
    simp [diagnosedSum, milT, mkMilRow, Val.toQ, List.filter]
  have hmem := military_per_capita milT _ hok (.str "Marines") 1738625
    (by simp [serviceKeys, milT, mkMilRow, List.mem_dedup]) rfl
  rw [hd] at hmem
  refine ⟨hok, hmem, ?_⟩
  rw [abs_lt]
  constructor <;> norm_num

/-- Witness for C3: on `ageGapT` the combination `(5-14, Other)` has no
row; the pipeline succeeds and that cell is the NaN marker contributing
0. -/
theorem proportions_missing_pair_witness :
    ∃ F, proportionsByGroup ageGapT "age_group" "type" "number_est" = .ok F
      ∧ F (.str "5-14") (.str "Other") = some PVal.nan
      ∧ cellContrib (F (.str "5-14") (.str "Other")) = 0 :=
  proportions_missing_pair_is_nan ageGapT "age_group" "type" "number_est"
    (.str "5-14") (.str "Other")
    (by simp [ageGapT]) (by simp [ageGapT]) (by simp [ageGapT])
    (by simp [groupKeys, ageGapT, mkAgeRow, List.mem_dedup])
    (by simp [groupKeys, ageGapT, mkAgeRow, List.mem_dedup])
    (by simp [hasPair, ageGapT, mkAgeRow])

/-- Witness for C4: on `zeroT`, whose group `0-4` totals 0, the
pipeline still returns `.ok` and both categories of `0-4` are NaN. -/
theorem proportions_zero_total_witness :
    ∃ F, proportionsByGroup zeroT "age_group" "type" "number_est" = .ok F
      ∧ ∀ ck ∈ groupKeys zeroT "type",
          F (.str "0-4") ck = some PVal.nan :=
  proportions_zero_total_yields_nan zeroT "age_group" "type" "number_est"
    (.str "0-4")
    (by simp [zeroT]) (by simp [zeroT]) (by simp [zeroT])
    (by simp [zeroT, mkAgeRow, Val.toQ])
    (by simp [groupKeys, zeroT, mkAgeRow, List.mem_dedup])
    (by simp [groupTotal, groupRows, zeroT, mkAgeRow, Val.toQ, List.filter])

/-- Witness for C5 (amended): the Coast Guard row of `coastT` appears
in the output with `recruited = none` and NaN per-1000 — undefined, not
zeroed. -/
theorem military_missing_service_undefined_witness :
    recruitmentOf (.str "Coast Guard") = none
    ∧ (⟨.str "Coast Guard", 500, none, PVal.nan⟩ : MilOut)
      ∈ [(⟨.str "Coast Guard", 500, none, PVal.nan⟩ : MilOut)] := by
  have hok : military_service_data coastT
      = .ok [⟨.str "Coast Guard", 500, none, PVal.nan⟩] := by
    simp [military_service_data, coastT, mkMilRow, serviceKeys, diagnosedSum,
      sortByCount, insertAsc, milOutOfPair, recruitmentOf, recruitment_numbers,
      pdMul, pdDivO, Val.toQ, List.dedup, List.filter]
  have hd : diagnosedSum coastT (.str "Coast Guard") = 500 := by
    simp [diagnosedSum, coastT, mkMilRow, Val.toQ, List.filter]
  have h := military_missing_service_undefined coastT _ hok
    (.str "Coast Guard")
    (by simp [serviceKeys, coastT, mkMilRow, List.mem_dedup]) rfl
  rw [hd] at h
  exact ⟨rfl, h⟩

/-- Witness for C8: asking the proportions pipeline for columns a table
does not have yields a `KeyError` naming a missing column. -/
theorem ops_error_on_missing_column_witness :
    ∃ m, m ∈ ["age_group", "type", "number_est"] ∧ m ∉ noColT.cols
      ∧ proportionsByGroup noColT "age_group" "type" "number_est"
          = .error (.keyError m) :=
  (ops_error_on_missing_column noColT).1 "age_group" "type" "number_est"
    (by simp [noColT])

/-- Witness for C9: the four operations applied twice to the scenario
table give identical results. -/
theorem aggregation_deterministic_witness :
    proportionsByGroup ageT "age_group" "type" "number_est"
      = proportionsByGroup ageT "age_group" "type" "number_est"
    ∧ ratesByMechanism ageT = ratesByMechanism ageT
    ∧ military_service_data ageT = military_service_data ageT
    ∧ correlationSeries ageT = correlationSeries ageT :=
  aggregation_deterministic ageT ageT "age_group" "type" "number_est" rfl

/-- Witness for C10: the Fall percentage of group `0-4` on the scenario
table, 200/3, lies between 0 and 100. -/
theorem proportions_percent_in_range_witness :
    (0 : ℚ) ≤ 200 / 3 ∧ (200 : ℚ) / 3 ≤ 100 := by
  have hnn : ∀ r ∈ ageT.rows, 0 ≤ (r "number_est").toQ := by
    simp [ageT, mkAgeRow, Val.toQ]
  have hpos : 0 < groupTotal ageT "age_group" "number_est" (.str "0-4") := by
    simp [groupTotal, groupRows, ageT, mkAgeRow, Val.toQ, List.filter]
    norm_num
  have hq : ageF (.str "0-4") (.str "Fall") = some (.val (200 / 3)) := by
    simp [ageF, groupKeys, ageT, mkAgeRow, List.mem_dedup, propCell, pdMul,
      pdDivO, hasPair, pairSum, groupTotal, groupRows, Val.toQ, List.filter,
      List.any]
    norm_num
  exact proportions_percent_in_range ageT "age_group" "type" "number_est"
    (.str "0-4") (.str "Fall") (200 / 3) ageF hnn hpos rfl hq
